import Mathlib

/-!
Verification development for the storage/caching/migration/backup subsystem
of the AccountME data store (`src/utils/db_manager.py`, class `DatabaseManager`).

The Python class is shallowly embedded as executable Lean definitions:

* rows of the SQLite tables become structures holding the columns that the
  modelled operations read or write;
* the single SQLite connection becomes a pair of database states
  (`committed`, `pending`): `conn.execute` mutates `pending` (or fails,
  leaving `pending` unchanged, which is SQLite's statement-level rollback),
  `conn.commit()` copies `pending` into `committed`, and `conn.rollback()`
  copies `committed` back into `pending`;
* the in-process cache becomes two insertion-ordered association lists
  (`cache`, `cache_ttl`), mirroring the two Python dicts, with cache keys
  rendered exactly as the Python f-string
  `f"{func_name}:{str(args)}:{str(sorted(kwargs.items()))}"` produces them;
* `time.time()` is frozen as the store's `now` field (all calls of one
  scenario happen "in succession", at one instant);
* exceptions raised by the SQLite engine become `Except` results; an
  environment-injected engine failure (disk I/O error and the like) is an
  explicit `AdjustFault` parameter where a claim quantifies over failures.
-/

/-! ### Generic list helpers (Python `dict` and `str` operations) -/

/-- First value bound to key `k` in an association list (Python `d[k]` /
`k in d`). Python dicts have unique keys; on lists with duplicate keys this
reads the first binding, which is the one `dictSet` maintains. -/
def dictGet {β : Type} (d : List (List Char × β)) (k : List Char) : Option β :=
  (d.find? (fun kv => kv.1 = k)).map (·.2)

/-- Python `d[k] = v`: replace the first binding of `k` in place (keeping its
position, as a Python dict does), or append a fresh binding. -/
def dictSet {β : Type} : List (List Char × β) → List Char → β → List (List Char × β)
  | [], k, v => [(k, v)]
  | (k', v') :: rest, k, v =>
    if k' = k then (k, v) :: rest else (k', v') :: dictSet rest k v

/-- Python `del d[k]` (dict keys are unique, so deleting every binding of `k`
agrees with Python on every state the embedded code can reach). -/
def dictDel {β : Type} : List (List Char × β) → List Char → List (List Char × β)
  | [], _ => []
  | (k', v') :: rest, k =>
    if k' = k then dictDel rest k else (k', v') :: dictDel rest k

/-- Keys of an association list, in iteration order. -/
def keysOf {β : Type} (d : List (List Char × β)) : List (List Char) :=
  d.map (·.1)

/-- Does `s` start with `p`? (helper for the Python substring test). -/
def startsW : List Char → List Char → Bool
  | [], _ => true
  | _ :: _, [] => false
  | a :: as, b :: bs => a == b && startsW as bs

/-- Python's `p in s` on strings: `p` occurs contiguously inside `s`
(the empty pattern occurs in every string). -/
def isSubStr (p : List Char) : List Char → Bool
  | [] => startsW p []
  | c :: rest => startsW p (c :: rest) || isSubStr p rest

/-- Python `min(d.keys(), key=lambda k: d[k])`: the first binding attaining
the minimal value, `none` on an empty dict (where Python raises). -/
def pythonMinKey : List (List Char × Nat) → Option (List Char × Nat)
  | [] => none
  | (k, e) :: rest =>
    match pythonMinKey rest with
    | none => some (k, e)
    | some (k', e') => if e' < e then some (k', e') else some (k, e)

/-! ### Data model: rows of the tables the claims touch

Columns that no modelled operation reads or writes (`manufacturer`, `vendor`,
`style`, `color`, `size`, `cost_price`, `selling_price`, `created_at`,
`receipt_image`, ...) are omitted; `TEXT` timestamps are the frozen clock
token `now : Nat`; `REAL` money columns are `Rat` (no modelled operation
computes with them). -/

/-- Errors raised by the `sqlite3` engine to the embedded methods. -/
inductive SqlErr
  | integrityError
  | operationalError
  | ioError
deriving DecidableEq, Repr

/-- A row of `products` (`product_id INTEGER PRIMARY KEY`, `sku TEXT UNIQUE`,
`quantity INTEGER DEFAULT 0`). -/
structure ProductRow where
  product_id : Nat
  name : String
  category : String
  sku : Option String
  quantity : Int
  updated_at : Nat
deriving DecidableEq, Repr

/-- A row of `customers`. -/
structure CustomerRow where
  customer_id : Nat
  name : String
deriving DecidableEq, Repr

/-- A row of `sales` (`customer_id` is a nullable foreign key). -/
structure SaleRow where
  sale_id : Nat
  customer_id : Option Nat
  date : String
  total_amount : Rat
  payment_method : Option String
  notes : Option String
deriving DecidableEq, Repr

/-- A row of `sale_items` (`sale_id`, `product_id` are `NOT NULL` foreign
keys). -/
structure SaleItemRow where
  sale_item_id : Nat
  sale_id : Nat
  product_id : Nat
  quantity : Int
  price : Rat
deriving DecidableEq, Repr

/-- A row of `audit_log`. -/
structure AuditRow where
  log_id : Nat
  action : String
  entity_type : String
  entity_id : Nat
  user_id : String
  details : Option String
  timestamp : Nat
deriving DecidableEq, Repr

/-- A row of `inventory_history` (`product_id` is a `NOT NULL` foreign
key). -/
structure HistoryRow where
  history_id : Nat
  product_id : Nat
  previous_quantity : Int
  new_quantity : Int
  change_amount : Int
  reason : Option String
  user_id : String
  timestamp : Nat
deriving DecidableEq, Repr

/-- The tables touched by the modelled operations, plus the engine's next
rowid per table (`INTEGER PRIMARY KEY` columns are engine-assigned;
`cursor.lastrowid` returns the id of the inserted row). -/
structure DB where
  products : List ProductRow
  customers : List CustomerRow
  sales : List SaleRow
  sale_items : List SaleItemRow
  audit_log : List AuditRow
  inventory_history : List HistoryRow
  nextProductId : Nat
  nextCustomerId : Nat
  nextSaleId : Nat
  nextSaleItemId : Nat
  nextLogId : Nat
  nextHistoryId : Nat
deriving DecidableEq, Repr

/-- The empty database, as `_initialize_database` leaves a fresh file. -/
def emptyDB : DB :=
  { products := [], customers := [], sales := [], sale_items := []
    audit_log := [], inventory_history := []
    nextProductId := 1, nextCustomerId := 1, nextSaleId := 1
    nextSaleItemId := 1, nextLogId := 1, nextHistoryId := 1 }

/-- The single `sqlite3` connection: `pending` is what statements on the
connection see (uncommitted work included), `committed` is what is durable
in the file. `conn.commit()` sets `committed := pending`; `conn.rollback()`
sets `pending := committed`. -/
structure Conn where
  committed : DB
  pending : DB
deriving DecidableEq, Repr

/-- A cached value. The modelled cached reads (`get_product` via `get_by_id`,
and `get_product_by_sku`) cache an optional product row; the inner `none`
is Python's `None` *stored in* the cache, which the decorator cannot tell
apart from a cache miss. -/
abbrev CVal := Option ProductRow

/-- The `DatabaseManager` state: connection plus the two cache dicts
(`self.cache`, `self.cache_ttl`) and the frozen `time.time()` clock.  -/
structure Store where
  conn : Conn
  cache : List (List Char × CVal)
  cache_ttl : List (List Char × Nat)
  now : Nat
deriving DecidableEq, Repr

/-- `self.default_ttl = 300`. -/
def default_ttl : Nat := 300

/-- `self.max_cache_size = 100`. -/
def max_cache_size : Nat := 100

/-- A freshly constructed manager over an empty database. -/
def mkStore : Store :=
  { conn := { committed := emptyDB, pending := emptyDB }
    cache := [], cache_ttl := [], now := 0 }

/-! ### Cache layer (`_get_from_cache`, `_set_in_cache`, `_invalidate_cache`) -/

/-- `_get_from_cache`: return the value bound to `key` unless its recorded
expiry is in the past, in which case delete the stale entry from both dicts
and report absence. -/
def get_from_cache (s : Store) (key : List Char) : Option CVal × Store :=
  match dictGet s.cache key with
  | none => (none, s)
  | some v =>
    match dictGet s.cache_ttl key with
    | some e =>
      if e < s.now then
        (none, { s with cache := dictDel s.cache key,
                        cache_ttl := dictDel s.cache_ttl key })
      else (some v, s)
    | none => (some v, s)

/-- `_set_in_cache`: when the cache is at `max_cache_size`, first evict the
single entry with the nearest expiry (Python's
`min(self.cache_ttl.keys(), key=...)`; on an empty `cache_ttl` Python would
raise `ValueError` — unreachable while the two dicts share their keys), then
bind `key` in both dicts with expiry `now + ttl`. -/
def set_in_cache (s : Store) (key : List Char) (v : CVal) (ttl : Option Nat) : Store :=
  let s1 :=
    if max_cache_size ≤ s.cache.length then
      match pythonMinKey s.cache_ttl with
      | some (k0, _) =>
        { s with cache := dictDel s.cache k0, cache_ttl := dictDel s.cache_ttl k0 }
      | none => s
    else s
  { s1 with cache := dictSet s1.cache key v,
            cache_ttl := dictSet s1.cache_ttl key (s.now + ttl.getD default_ttl) }

/-- `_invalidate_cache`: with no pattern, clear both dicts; with a pattern,
collect the cache keys containing it as a substring and delete those keys
from `cache` (and from `cache_ttl` where present). -/
def invalidate_cache (s : Store) (pattern : Option (List Char)) : Store :=
  match pattern with
  | none => { s with cache := [], cache_ttl := [] }
  | some p =>
    let keysToRemove := (keysOf s.cache).filter (fun k => isSubStr p k)
    { s with
      cache := s.cache.filter (fun kv => !(isSubStr p kv.1)),
      cache_ttl := s.cache_ttl.filter (fun kv => !(keysToRemove.contains kv.1)) }

/-! ### Cache keys

`_cache_key(func_name, args, kwargs)` renders
`f"{func_name}:{str(args)}:{str(sorted(kwargs.items()))}"`. The wrapped
implementation functions are always called positionally, so the kwargs part
is the constant `"[]"`. -/

/-- Key of the cached `_get_by_id_impl(table, id_column, id_value)` read for
`get_product`: `_get_by_id_impl:('products', 'product_id', <id>):[]`. -/
def productKey (pid : Nat) : List Char :=
  "_get_by_id_impl:('products', 'product_id', ".data ++ (Nat.repr pid).data ++ "):[]".data

/-- Key of the cached `_get_product_by_sku_impl(sku)` read:
`_get_product_by_sku_impl:('<sku>',):[]`. -/
def skuKey (sku : String) : List Char :=
  "_get_product_by_sku_impl:('".data ++ sku.data ++ "',):[]".data

/-! ### Connection helpers -/

/-- `conn.commit()`. -/
def commitConn (s : Store) : Store :=
  { s with conn := { committed := s.conn.pending, pending := s.conn.pending } }

/-- `conn.rollback()`: discard uncommitted work. Work already committed by a
nested `commit()` is untouched. -/
def rollbackConn (s : Store) : Store :=
  { s with conn := { s.conn with pending := s.conn.committed } }

/-! ### Cached reads (`get_by_id` / `get_product`, `get_product_by_sku`)

Each cached read returns `(result, queries, store)` where `queries` counts
the `SELECT` statements executed against the connection (0 on a cache hit) —
the "call-count spy on the connection" of the spec's cache-transparency
property. -/

/-- `SELECT * FROM products WHERE product_id = ?` followed by `results[0]`:
the first matching row, reading the connection's (pending) state. -/
def findProduct (db : DB) (pid : Nat) : Option ProductRow :=
  db.products.find? (fun r => r.product_id == pid)

/-- `SELECT * FROM products WHERE sku = ?` followed by `results[0]`. -/
def findProductBySku (db : DB) (sku : String) : Option ProductRow :=
  db.products.find? (fun r => r.sku == some sku)

/-- `get_product` = `get_by_id('products', 'product_id', pid)`: the cached
`_get_by_id_impl` wrapper. A stored Python `None` is indistinguishable from
a miss (`if cached_value is not None`), so it falls through to a fresh
query. -/
def get_product (s : Store) (pid : Nat) : Option ProductRow × Nat × Store :=
  match get_from_cache s (productKey pid) with
  | (some (some r), s') => (some r, 0, s')
  | (_, s') =>
    let res := findProduct s'.conn.pending pid
    (res, 1, set_in_cache s' (productKey pid) res none)

/-- `get_product_by_sku`: the cached `_get_product_by_sku_impl` wrapper. -/
def get_product_by_sku (s : Store) (sku : String) : Option ProductRow × Nat × Store :=
  match get_from_cache s (skuKey sku) with
  | (some (some r), s') => (some r, 0, s')
  | (_, s') =>
    let res := findProductBySku s'.conn.pending sku
    (res, 1, set_in_cache s' (skuKey sku) res none)

/-! ### Generic write layer, specialised to its call sites

The Python generic `insert(table, data)` / `update(table, data, cond, params)`
each run `conn.execute` (which can raise an engine error, leaving pending
state untouched for that statement), then `conn.commit()`, then
`_invalidate_cache(table)`. The embeddings below mirror the concrete
dictionaries each call site passes. -/

/-- `insert('products', {..., 'updated_at': now})`: enforces the
`sku TEXT UNIQUE` constraint (SQLite admits multiple NULL skus), commits,
invalidates `"products"`, returns `lastrowid`. -/
def insert_products (s : Store) (name category : String) (sku : Option String)
    (quantity : Int) (updated_at : Nat) : Except SqlErr Nat × Store :=
  let db := s.conn.pending
  let dup := match sku with
    | some k => db.products.any (fun r => r.sku == some k)
    | none => false
  if dup then (.error .integrityError, s)
  else
    let row : ProductRow :=
      { product_id := db.nextProductId, name := name, category := category
        sku := sku, quantity := quantity, updated_at := updated_at }
    let db' := { db with products := db.products ++ [row],
                         nextProductId := db.nextProductId + 1 }
    let s1 := commitConn { s with conn := { s.conn with pending := db' } }
    (.ok row.product_id, invalidate_cache s1 (some "products".data))

/-- `insert('sales', sale_data)`: enforces the nullable `customer_id`
foreign key, commits, invalidates `"sales"`, returns `lastrowid`. -/
def insert_sales (s : Store) (customer_id : Option Nat) (date : String)
    (total_amount : Rat) (payment_method notes : Option String) :
    Except SqlErr Nat × Store :=
  let db := s.conn.pending
  let fkOk := match customer_id with
    | some c => db.customers.any (fun r => r.customer_id == c)
    | none => true
  if !fkOk then (.error .integrityError, s)
  else
    let row : SaleRow :=
      { sale_id := db.nextSaleId, customer_id := customer_id, date := date
        total_amount := total_amount, payment_method := payment_method
        notes := notes }
    let db' := { db with sales := db.sales ++ [row],
                         nextSaleId := db.nextSaleId + 1 }
    let s1 := commitConn { s with conn := { s.conn with pending := db' } }
    (.ok row.sale_id, invalidate_cache s1 (some "sales".data))

/-- `insert('sale_items', item)`: enforces the `sale_id` and `product_id`
foreign keys (`PRAGMA foreign_keys = ON`), commits, invalidates
`"sale_items"`. -/
def insert_sale_items (s : Store) (sale_id product_id : Nat) (quantity : Int)
    (price : Rat) : Except SqlErr Nat × Store :=
  let db := s.conn.pending
  if !(db.sales.any (fun r => r.sale_id == sale_id)) then (.error .integrityError, s)
  else if !(db.products.any (fun r => r.product_id == product_id)) then
    (.error .integrityError, s)
  else
    let row : SaleItemRow :=
      { sale_item_id := db.nextSaleItemId, sale_id := sale_id
        product_id := product_id, quantity := quantity, price := price }
    let db' := { db with sale_items := db.sale_items ++ [row],
                         nextSaleItemId := db.nextSaleItemId + 1 }
    let s1 := commitConn { s with conn := { s.conn with pending := db' } }
    (.ok row.sale_item_id, invalidate_cache s1 (some "sale_items".data))

/-- `insert('audit_log', data)` as issued by `log_audit`: commits and
invalidates `"audit_log"`. -/
def insert_audit_log (s : Store) (action entity_type : String) (entity_id : Nat)
    (user_id : String) (details : Option String) : Except SqlErr Nat × Store :=
  let db := s.conn.pending
  let row : AuditRow :=
    { log_id := db.nextLogId, action := action, entity_type := entity_type
      entity_id := entity_id, user_id := user_id, details := details
      timestamp := s.now }
  let db' := { db with audit_log := db.audit_log ++ [row],
                       nextLogId := db.nextLogId + 1 }
  let s1 := commitConn { s with conn := { s.conn with pending := db' } }
  (.ok row.log_id, invalidate_cache s1 (some "audit_log".data))

/-- `insert('inventory_history', data)` as issued by `add_inventory_history`:
enforces the `product_id` foreign key, commits, invalidates
`"inventory_history"`. -/
def insert_inventory_history (s : Store) (product_id : Nat)
    (previous_quantity new_quantity change_amount : Int)
    (reason : Option String) (user_id : String) : Except SqlErr Nat × Store :=
  let db := s.conn.pending
  if !(db.products.any (fun r => r.product_id == product_id)) then
    (.error .integrityError, s)
  else
    let row : HistoryRow :=
      { history_id := db.nextHistoryId, product_id := product_id
        previous_quantity := previous_quantity, new_quantity := new_quantity
        change_amount := change_amount, reason := reason, user_id := user_id
        timestamp := s.now }
    let db' := { db with inventory_history := db.inventory_history ++ [row],
                         nextHistoryId := db.nextHistoryId + 1 }
    let s1 := commitConn { s with conn := { s.conn with pending := db' } }
    (.ok row.history_id, invalidate_cache s1 (some "inventory_history".data))

/-- `update('products', {'quantity': q, 'updated_at': now}, 'product_id = ?',
(pid,))`: updates every matching row, commits, invalidates `"products"`,
returns the rowcount. -/
def update_products_quantity (s : Store) (pid : Nat) (newQty : Int) :
    Nat × Store :=
  let db := s.conn.pending
  let db' := { db with products := db.products.map (fun r =>
      if r.product_id == pid then { r with quantity := newQty, updated_at := s.now }
      else r) }
  let s1 := commitConn { s with conn := { s.conn with pending := db' } }
  ((db.products.filter (fun r => r.product_id == pid)).length,
   invalidate_cache s1 (some "products".data))

/-! ### Domain operations -/

/-- `add_product`: stamp `updated_at` with the current time, then
`insert('products', product_data)`. -/
def add_product (s : Store) (name category : String) (sku : Option String)
    (quantity : Int) : Except SqlErr Nat × Store :=
  insert_products s name category sku quantity s.now

/-- `log_audit(action, entity_type, entity_id, user_id, details)`. -/
def log_audit (s : Store) (action entity_type : String) (entity_id : Nat)
    (user_id : String) (details : Option String) : Except SqlErr Nat × Store :=
  insert_audit_log s action entity_type entity_id user_id details

/-- `add_inventory_history(product_id, previous, new, change, reason,
user_id)`. -/
def add_inventory_history (s : Store) (product_id : Nat)
    (previous_quantity new_quantity change_amount : Int)
    (reason : Option String) (user_id : String) : Except SqlErr Nat × Store :=
  insert_inventory_history s product_id previous_quantity new_quantity
    change_amount reason user_id

/-- An engine failure injected by the environment (disk I/O error and the
like) during one of the three writes of `adjust_product_quantity`. The
exception strikes while the statement executes, before its `commit()`, so
that statement's own changes are not pending; the `except` handler then runs
`conn.rollback()` and returns `False`. -/
inductive AdjustFault
  | noFault
  | onUpdate
  | onAudit
  | onHistory
deriving DecidableEq, Repr

/-- The `details` string built by `adjust_product_quantity`. -/
def adjustDetails (current newQ : Int) (reason : Option String) : String :=
  let base := "Quantity changed from " ++ toString current ++ " to " ++ toString newQ
  match reason with
  | some r => base ++ ". Reason: " ++ r
  | none => base

/-- `adjust_product_quantity(product_id, quantity_change, user_id, reason)`:
read the current quantity through the cached `get_product`, update the row,
write one audit-log entry and one inventory-history row; any exception is
caught, `conn.rollback()` runs, and the method returns `False`. -/
def adjust_product_quantity (s : Store) (pid : Nat) (quantity_change : Int)
    (user_id : String) (reason : Option String) (fault : AdjustFault) :
    Bool × Store :=
  match get_product s pid with
  | (none, _, s1) => (false, s1)
  | (some p, _, s1) =>
    let newQ := p.quantity + quantity_change
    match fault with
    | .onUpdate => (false, rollbackConn s1)
    | _ =>
      let (_, s2) := update_products_quantity s1 pid newQ
      match fault with
      | .onAudit => (false, rollbackConn s2)
      | _ =>
        match log_audit s2 "adjust_quantity" "product" pid user_id
            (some (adjustDetails p.quantity newQ reason)) with
        | (.error _, s3) => (false, rollbackConn s3)
        | (.ok _, s3) =>
          match fault with
          | .onHistory => (false, rollbackConn s3)
          | _ =>
            match add_inventory_history s3 pid p.quantity newQ quantity_change
                reason user_id with
            | (.error _, s4) => (false, rollbackConn s4)
            | (.ok _, s4) => (true, s4)

/-- One line of a sale passed to `add_sale`. -/
structure SaleItemInput where
  product_id : Nat
  quantity : Int
  price : Rat
deriving DecidableEq, Repr

/-- The per-item body of `add_sale`'s loop: insert the `sale_items` row, then
read the product through the cached `get_product` and, when it exists,
decrement its quantity (each nested call commits on its own). -/
def add_sale_items_loop (sale_id : Nat) :
    Store → List SaleItemInput → Except SqlErr Unit × Store
  | s, [] => (.ok (), s)
  | s, item :: rest =>
    match insert_sale_items s sale_id item.product_id item.quantity item.price with
    | (.error e, s') => (.error e, s')
    | (.ok _, s') =>
      match get_product s' item.product_id with
      | (some p, _, s'') =>
        let (_, s3) := update_products_quantity s'' item.product_id
          (p.quantity - item.quantity)
        add_sale_items_loop sale_id s3 rest
      | (none, _, s'') => add_sale_items_loop sale_id s'' rest

/-- `add_sale(sale_data, sale_items)`: `conn.execute("BEGIN")`, insert the
sale, loop over the items, `conn.commit()`, invalidate the `sales`,
`sale_items` and `products` caches; on any exception `conn.rollback()` and
re-raise. Every nested `insert`/`update` has already committed its own
statement, so the final commit and the rollback only cover work pending
since the last nested commit. -/
def add_sale (s : Store) (customer_id : Option Nat) (date : String)
    (total_amount : Rat) (payment_method notes : Option String)
    (sale_items : List SaleItemInput) : Except SqlErr Nat × Store :=
  match insert_sales s customer_id date total_amount payment_method notes with
  | (.error e, s1) => (.error e, rollbackConn s1)
  | (.ok sale_id, s1) =>
    match add_sale_items_loop sale_id s1 sale_items with
    | (.error e, s2) => (.error e, rollbackConn s2)
    | (.ok _, s2) =>
      let s3 := commitConn s2
      let s4 := invalidate_cache s3 (some "sales".data)
      let s5 := invalidate_cache s4 (some "sale_items".data)
      (.ok sale_id, invalidate_cache s5 (some "products".data))

/-! ### Migration engine (`_initialize_database`, `_apply_migrations`,
`_get_current_schema_version`, `_get_migration_sql`, `_update_schema_version`)

Modelled over the schema objects (tables and indexes) a script creates and
the rows of `schema_version`. `CREATE TABLE/INDEX IF NOT EXISTS` adds the
object only when absent, so scripts are idempotent on the object set. -/

/-- The schema-version target, `DatabaseManager.CURRENT_VERSION = 3`. -/
def CURRENT_VERSION : Nat := 3

/-- Schema state of one database file: the `schema_version` rows (version
and description; `applied_at` carries no information the claims use) and the
set of created schema objects, in creation order. -/
structure MigDB where
  versions : List (Nat × String)
  objects : List String
deriving DecidableEq, Repr

/-- `CREATE ... IF NOT EXISTS`: add the object when absent. -/
def createIfAbsent (os : List String) (o : String) : List String :=
  if os.contains o then os else os ++ [o]

/-- Run a DDL script: create each named object if absent. -/
def runScript (db : MigDB) (objs : List String) : MigDB :=
  { db with objects := objs.foldl createIfAbsent db.objects }

/-- The tables created by `_initialize_database`'s `create_tables_sql`. -/
def baseTables : List String :=
  ["schema_version", "products", "expenses", "customers", "sales",
   "sale_items", "audit_log", "backup_log", "inventory_history"]

/-- `_initialize_database`: one idempotent script creating every table. -/
def initializeDatabaseMig (db : MigDB) : MigDB :=
  runScript db baseTables

/-- `_get_current_schema_version`: `SELECT MAX(version) FROM schema_version`,
`0` when the table is empty (or absent). -/
def get_current_schema_version (db : MigDB) : Nat :=
  (db.versions.map (·.1)).foldr max 0

/-- `_get_migration_sql`: the static version → script table. Version 1 has
no script (absence is valid — the step is skipped). -/
def get_migration_sql : Nat → Option (List String)
  | 2 => some ["inventory_history"]
  | 3 => some
      ["idx_products_category", "idx_products_sku", "idx_products_name",
       "idx_products_quantity", "idx_expenses_date", "idx_expenses_category",
       "idx_expenses_vendor", "idx_customers_discord_id", "idx_customers_name",
       "idx_sales_date", "idx_sales_customer_id", "idx_sales_payment_method",
       "idx_sale_items_sale_id", "idx_sale_items_product_id",
       "idx_inventory_history_product_id", "idx_inventory_history_timestamp",
       "idx_inventory_history_user_id", "idx_audit_log_entity_type",
       "idx_audit_log_entity_id", "idx_audit_log_user_id",
       "idx_audit_log_timestamp"]
  | _ => none

/-- One migration step for version `v`: when a script exists, execute it and
insert the `schema_version` row recording `v` (committing after the step);
when no script exists, skip the version entirely. -/
def applyOneMigration (db : MigDB) (v : Nat) : MigDB :=
  match get_migration_sql v with
  | some objs =>
    let db' := runScript db objs
    { db' with versions := db'.versions ++ [(v, "Migration to version " ++ toString v)] }
  | none => db

/-- `_apply_migrations`: when the current version is below the target, apply
each version from `current + 1` to `CURRENT_VERSION` in order. -/
def apply_migrations (db : MigDB) : MigDB :=
  let cur := get_current_schema_version db
  if cur < CURRENT_VERSION then
    (List.range' (cur + 1) (CURRENT_VERSION - cur)).foldl applyOneMigration db
  else db

/-- `DatabaseManager.__init__` as far as the schema is concerned:
`_initialize_database()` then `_apply_migrations()`. -/
def constructSchema (db : MigDB) : MigDB :=
  apply_migrations (initializeDatabaseMig db)

/-- A database file that does not exist yet. -/
def freshFile : MigDB := { versions := [], objects := [] }

/-! ### Backup / verify / restore pipeline (`backup_database`,
`verify_backup_integrity`, `restore_database`)

Files are byte lists; SHA-256 is an abstract hash function passed as an
argument (the pipeline only ever compares hash outputs for equality). A
backup artifact is either a plain `.db` file with an optional
`.meta.json` sidecar next to it, or a zip archive whose entries are
classified, as the source does, by the `.db` / `.meta.json` name
extensions. -/

/-- The JSON sidecar metadata (`filename`/`timestamp` carry no information
the verification path compares; `tables` holds the per-table row counts,
`-1` for a failed count). -/
structure BkMeta where
  checksum : Option String
  db_version : Nat
  compressed : Bool
  tables : List (String × Int)
deriving DecidableEq, Repr

/-- An uncompressed backup: the `.db` copy, plus the sidecar when the
`<file>.meta.json` path exists. -/
structure PlainBackup where
  dbBytes : List Nat
  sidecar : Option BkMeta
deriving DecidableEq, Repr

/-- A zip archive: its entries ending in `.db` and those ending in
`.meta.json`, each with the entry name, in listing order. -/
structure ZipBackup where
  dbEntries : List (String × List Nat)
  metaEntries : List (String × BkMeta)
deriving DecidableEq, Repr

/-- A backup artifact on disk. -/
inductive BackupArtifact
  | plain (p : PlainBackup)
  | zipped (z : ZipBackup)
deriving DecidableEq, Repr

/-- The `backup_log` row written by `create_backup_record`. -/
structure BackupRecord where
  filename : String
  location : String
  checksum : Option String
  compressed : Bool
  metadata : BkMeta
deriving DecidableEq, Repr

/-- `backup_database(backup_dir, compress=True)`: duplicate the live file
with the engine's backup API, compute the checksum of that uncompressed
copy (`sha256` streamed in 4K chunks), build the sidecar metadata carrying
that checksum, zip the copy and the sidecar into one archive (deleting the
two originals), and record a `backup_log` row with the same checksum.
`sha256` is the abstract hash; `liveBytes` the live database file; `counts`
the per-table `COUNT(*)` results; `ts` the timestamp filename part. -/
def backup_database (sha256 : List Nat → String) (liveBytes : List Nat)
    (counts : List (String × Int)) (ts : String) (backup_dir : String) :
    BackupArtifact × BackupRecord :=
  let backup_filename := "accountme_backup_" ++ ts ++ ".db"
  let checksum := sha256 liveBytes
  let meta : BkMeta :=
    { checksum := some checksum, db_version := CURRENT_VERSION
      compressed := true, tables := counts }
  let zipName := backup_filename ++ ".zip"
  let artifact := BackupArtifact.zipped
    { dbEntries := [(backup_filename, liveBytes)]
      metaEntries := [(backup_filename ++ ".meta.json", meta)] }
  (artifact,
   { filename := zipName, location := backup_dir, checksum := some checksum
     compressed := true, metadata := meta })

/-- `verify_backup_integrity(backup_path)`: for a zip, extract and locate the
`.db` entry (none ⇒ `False`) and the `.meta.json` entry (none ⇒ the later
`open(None)` raises, caught ⇒ `False`); for a plain file, require the
sidecar (missing ⇒ `False`). Then recompute the checksum of the database
file and compare with the sidecar's recorded checksum (missing ⇒ `False`;
mismatch ⇒ `False`; match ⇒ `True`, after opportunistically marking the
`backup_log` row verified, which does not change the result). -/
def verify_backup_integrity (sha256 : List Nat → String) :
    BackupArtifact → Bool
  | .plain p =>
    match p.sidecar with
    | none => false
    | some m =>
      match m.checksum with
      | none => false
      | some c => c == sha256 p.dbBytes
  | .zipped z =>
    match z.dbEntries with
    | [] => false
    | (_, dbBytes) :: _ =>
      match z.metaEntries with
      | [] => false
      | (_, m) :: _ =>
        match m.checksum with
        | none => false
        | some c => c == sha256 dbBytes

/-- `restore_database(backup_path, verify_integrity=True)`: locate the
database file (for a zip with no `.db` entry: `False`, live file untouched)
and the sidecar *if present* (a missing sidecar makes `metadata_path`
`None`). Verification runs only when requested *and* a sidecar was found,
and aborts only when the sidecar records a checksum that differs from the
recomputed one (`if expected_checksum and expected_checksum !=
actual_checksum`). Otherwise the engine's backup API overwrites the live
file from the artifact's database file and the method returns `True`.
Returns the success flag and the live file's bytes after the call. -/
def restore_database (sha256 : List Nat → String) (a : BackupArtifact)
    (verify_integrity : Bool) (liveBytes : List Nat) : Bool × List Nat :=
  let located : Option (List Nat × Option BkMeta) :=
    match a with
    | .plain p => some (p.dbBytes, p.sidecar)
    | .zipped z =>
      match z.dbEntries with
      | [] => none
      | (_, dbBytes) :: _ =>
        match z.metaEntries with
        | [] => some (dbBytes, none)
        | (_, m) :: _ => some (dbBytes, some m)
  match located with
  | none => (false, liveBytes)
  | some (dbBytes, metaOpt) =>
    let abortOnChecksum :=
      match verify_integrity, metaOpt with
      | true, some m =>
        match m.checksum with
        | some c => decide (c ≠ sha256 dbBytes)
        | none => false
      | _, _ => false
    if abortOnChecksum then (false, liveBytes)
    else (true, dbBytes)

/-! ### Derived observation helpers and claim scenarios -/

/-- The quantity the `products` table holds for `pid` (first matching row,
read from the connection's state). -/
def productQty (db : DB) (pid : Nat) : Option Int :=
  (findProduct db pid).map (·.quantity)

/-- The `inventory_history` rows for one product. -/
def historyFor (db : DB) (pid : Nat) : List HistoryRow :=
  db.inventory_history.filter (fun h => h.product_id == pid)

/-- One `adjust_product_quantity` call of a sequence (all calls target the
same product; the engine raises no environment fault, so the only failure
mode is an absent product). -/
structure AdjCall where
  delta : Int
  user : String
  reason : Option String
deriving DecidableEq, Repr

/-- Run a sequence of `adjust_product_quantity` calls on one product,
collecting the returned success flags. -/
def runAdjusts (pid : Nat) : Store → List AdjCall → Store × List Bool
  | s, [] => (s, [])
  | s, c :: rest =>
    let (b, s') := adjust_product_quantity s pid c.delta c.user c.reason .noFault
    let (s'', bs) := runAdjusts pid s' rest
    (s'', b :: bs)

/-- Sum of the deltas of a call sequence. -/
def sumDeltas (calls : List AdjCall) : Int :=
  (calls.map (·.delta)).sum

/-- An operation against the cache layer: the three primitives plus the
read-through pattern the `cached` decorator applies (`v` is the value the
wrapped computation would produce on a miss). -/
inductive CacheOp
  | get (k : List Char)
  | set (k : List Char) (v : CVal) (ttl : Option Nat)
  | invalidate (p : Option (List Char))
  | readThrough (k : List Char) (v : CVal) (ttl : Option Nat)
deriving DecidableEq, Repr

/-- Apply one cache operation to the store. -/
def cacheStep (s : Store) : CacheOp → Store
  | .get k => (get_from_cache s k).2
  | .set k v ttl => set_in_cache s k v ttl
  | .invalidate p => invalidate_cache s p
  | .readThrough k v ttl =>
    match get_from_cache s k with
    | (some (some _), s') => s'
    | (_, s') => set_in_cache s' k v ttl

/-- The cache-layer invariant: `self.cache` and `self.cache_ttl` hold the
same keys in the same order, without duplicates, and the entry count never
exceeds `max_cache_size`. -/
def CacheInv (s : Store) : Prop :=
  keysOf s.cache = keysOf s.cache_ttl ∧
  (keysOf s.cache).Nodup ∧
  s.cache.length ≤ max_cache_size

/-- The store invariants `runAdjusts` maintains for the target product: no
uncommitted work is pending, and any cached `get_by_id` row for the product
agrees with the `products` table (the reachable states of the source keep
this: every products write invalidates every cache key containing
`products`, and `_get_by_id_impl`'s key does). -/
def AdjustReady (s : Store) (pid : Nat) : Prop :=
  s.conn.pending = s.conn.committed ∧
  ∀ r : ProductRow, dictGet s.cache (productKey pid) = some (some r) →
    findProduct s.conn.pending pid = some r

/-- Shared scenario base: a fresh store holding one product,
`{name: 'Tee', category: 'blank', sku: 'TS001', quantity: 10}`,
with id 1. -/
def storeWithTee : Store :=
  (add_product mkStore "Tee" "blank" (some "TS001") 10).2

/-- C1 scenario: a sale of one line on the existing product 1 and one line
referencing the nonexistent product 2. -/
def c1SaleResult : Except SqlErr Nat × Store :=
  add_sale storeWithTee none "2025-01-01" 10 none none
    [{ product_id := 1, quantity := 2, price := 10 },
     { product_id := 2, quantity := 1, price := 10 }]

/-- C2 scenario: a quantity adjustment whose audit-log insert raises an
engine error. -/
def c2AdjustResult : Bool × Store :=
  adjust_product_quantity storeWithTee 1 5 "user1" none .onAudit

/-- C3 scenario: cache the SKU lookup, then adjust the quantity (which
invalidates the `products` pattern), then look the SKU up again. -/
def c3AfterSkuRead : Store := (get_product_by_sku storeWithTee "TS001").2.2

/-- C3 scenario, after the quantity adjustment. -/
def c3AfterAdjust : Store :=
  (adjust_product_quantity c3AfterSkuRead 1 5 "user1" none .noFault).2

/-- C4 counterexample scenario: `get_product` on an empty store returns
`None`, which the decorator caches but can never serve. -/
def c4FirstRead : Option ProductRow × Nat × Store := get_product mkStore 1

/-- C8 witness scenario: sidecar metadata recording checksum `y` while the
hash of the artifact's database bytes is `x`. -/
def mismatchMeta : BkMeta :=
  { checksum := some "y", db_version := 3, compressed := false, tables := [] }

/-! ### Small lemmas about the helpers -/

/-- A pattern that starts a list also starts any extension of it. -/
theorem startsW_append (p a b : List Char) (h : startsW p a = true) :
    startsW p (a ++ b) = true := by
  induction p generalizing a with
  | nil => simp [startsW]
  | cons c cs ih =>
    cases a with
    | nil => simp [startsW] at h
    | cons x xs =>
      simp only [startsW, Bool.and_eq_true] at h
      simp only [List.cons_append, startsW, Bool.and_eq_true]
      exact ⟨h.1, ih xs (h.2)⟩

/-- A substring of `a` is a substring of `a ++ b`. -/
theorem isSubStr_append_left (p a b : List Char) (h : isSubStr p a = true) :
    isSubStr p (a ++ b) = true := by
  induction a with
  | nil =>
    cases p with
    | nil => cases b with
      | nil => simp [isSubStr, startsW]
      | cons y ys => simp [isSubStr, startsW]
    | cons c cs => simp [isSubStr, startsW] at h
  | cons x xs ih =>
    simp only [isSubStr, Bool.or_eq_true] at h
    simp only [List.cons_append, isSubStr, Bool.or_eq_true]
    cases h with
    | inl h => exact Or.inl (startsW_append _ _ _ h)
    | inr h => exact Or.inr (ih h)

/-- Every `_get_by_id_impl` cache key for the `products` table contains
`products` as a substring, whatever the id is. -/
theorem productKey_has_products (pid : Nat) :
    isSubStr "products".data (productKey pid) = true := by
  have h : isSubStr "products".data "_get_by_id_impl:('products', 'product_id', ".data = true := by
    decide
  have := isSubStr_append_left "products".data
    "_get_by_id_impl:('products', 'product_id', ".data
    ((Nat.repr pid).data ++ "):[]".data) h
  simpa [productKey, List.append_assoc] using this

/-- `dictGet` misses every key the pattern-based invalidation removed. -/
theorem dictGet_invalidate_of_sub (s : Store) (p k : List Char)
    (hk : isSubStr p k = true) :
    dictGet (invalidate_cache s (some p)).cache k = none := by
  unfold invalidate_cache dictGet
  simp only [Option.map_eq_none']
  rw [List.find?_eq_none]
  intro kv hkv
  rcases List.mem_filter.mp hkv with ⟨_, hpred⟩
  simp only [Bool.not_eq_true'] at hpred
  intro hEq
  have hk' : kv.1 = k := of_decide_eq_true hEq
  rw [hk'] at hpred
  simp [hk] at hpred

/-- `dictGet` still misses after any further filtering. -/
theorem dictGet_filter_none {β : Type} (d : List (List Char × β))
    (f : List Char × β → Bool) (k : List Char) (h : dictGet d k = none) :
    dictGet (d.filter f) k = none := by
  unfold dictGet at h ⊢
  simp only [Option.map_eq_none'] at h ⊢
  rw [List.find?_eq_none] at h ⊢
  intro kv hkv
  exact h kv (List.mem_filter.mp hkv).1

/-- Reading the key just written returns the written value. -/
theorem dictGet_dictSet_self {β : Type} (d : List (List Char × β))
    (k : List Char) (v : β) : dictGet (dictSet d k v) k = some v := by
  induction d with
  | nil => simp [dictSet, dictGet, List.find?]
  | cons kv rest ih =>
    by_cases h : kv.1 = k
    · simp [dictSet, h, dictGet, List.find?]
    · cases kv with
      | mk k' v' =>
        simp only at h
        simp only [dictSet, if_neg h]
        unfold dictGet at ih ⊢
        simp [List.find?, h, ih]

/-! ### C7: migration idempotence -/

/-- C7: constructing the store twice against the same database file applies
no migration during the second construction — the `schema_version` row count
is unchanged and the whole schema state is identical — and after the first
as well as the second construction the current schema version
(`MAX(version)`, or 0 when the table is empty or absent) equals the target
`CURRENT_VERSION`. -/
theorem constructSchema_idempotent_and_reaches_target :
    (constructSchema (constructSchema freshFile)).versions.length =
      (constructSchema freshFile).versions.length ∧
    constructSchema (constructSchema freshFile) = constructSchema freshFile ∧
    get_current_schema_version (constructSchema freshFile) = CURRENT_VERSION ∧
    get_current_schema_version (constructSchema (constructSchema freshFile)) =
      CURRENT_VERSION := by
  refine ⟨rfl, by decide, by decide, by decide⟩

/-! ### C10: the recorded backup checksum is the hash of the uncompressed
database copy -/

/-- C10: for a compressed backup, the checksum recorded in the `backup_log`
record and in the sidecar metadata inside the archive is the SHA-256 of the
uncompressed database copy (the live file's bytes, hashed before zipping;
the archive's own bytes are never hashed), and `verify_backup_integrity`
recomputes the checksum over the database file inside the archive, so on
the untampered artifact the two agree and verification returns `true`. -/
theorem backup_records_checksum_of_db_copy (sha256 : List Nat → String)
    (liveBytes : List Nat) (counts : List (String × Int)) (ts dir : String) :
    (backup_database sha256 liveBytes counts ts dir).2.checksum =
      some (sha256 liveBytes) ∧
    (backup_database sha256 liveBytes counts ts dir).1 =
      BackupArtifact.zipped
        { dbEntries := [("accountme_backup_" ++ ts ++ ".db", liveBytes)]
          metaEntries := [(("accountme_backup_" ++ ts ++ ".db") ++ ".meta.json",
            { checksum := some (sha256 liveBytes)
              db_version := CURRENT_VERSION, compressed := true
              tables := counts })] } ∧
    verify_backup_integrity sha256
      (backup_database sha256 liveBytes counts ts dir).1 = true := by
  refine ⟨rfl, rfl, ?_⟩
  simp [backup_database, verify_backup_integrity]

/-! ### C8: restore with verification -/

/-- C8 counterexample: for an uncompressed backup artifact with no metadata
sidecar, `verify_backup_integrity` returns `false`, yet
`restore_database(path, verify_integrity=True)` still performs the swap:
it returns `true` and overwrites the live database bytes (`[1]` becomes the
artifact's `[0]`), refuting the claim that restore never overwrites the
live database when verification of the artifact would fail. -/
theorem restore_overwrites_despite_failed_verification :
    verify_backup_integrity (fun _ => "") (.plain ⟨[0], none⟩) = false ∧
    restore_database (fun _ => "") (.plain ⟨[0], none⟩) true [1] = (true, [0]) := by
  refine ⟨rfl, by decide⟩

/-- C8 (amended): `restore(path, verify=true)` refuses the swap exactly when
a located sidecar records a checksum that differs from the checksum
recomputed over the artifact's database file: then it returns `false` with
the live bytes unchanged (both for a plain artifact and for an archive).
When the sidecar or its checksum is missing — cases where
`verify_backup_integrity` also returns `false` — the restore proceeds
anyway. -/
theorem restore_aborts_on_checksum_mismatch (sha256 : List Nat → String)
    (db live : List Nat) (m : BkMeta) (c : String)
    (hc : m.checksum = some c) (hne : c ≠ sha256 db)
    (n n' : String) (dbE : List (String × List Nat))
    (metaE : List (String × BkMeta)) :
    restore_database sha256 (.plain ⟨db, some m⟩) true live = (false, live) ∧
    restore_database sha256
      (.zipped ⟨(n, db) :: dbE, (n', m) :: metaE⟩) true live = (false, live) := by
  constructor <;> simp [restore_database, hc, hne]

/-- C8 (amended) witness at a concrete mismatching artifact. -/
theorem restore_aborts_on_checksum_mismatch_witness :
    (mismatchMeta.checksum = some "y") ∧
    ("y" ≠ (fun _ : List Nat => "x") [0]) ∧
    (restore_database (fun _ => "x")
        (.plain ⟨[0], some mismatchMeta⟩) true [1] = (false, [1]) ∧
     restore_database (fun _ => "x")
        (.zipped ⟨[("a.db", [0])], [("a.db.meta.json", mismatchMeta)]⟩)
        true [1] = (false, [1])) :=
  ⟨rfl, by decide, restore_aborts_on_checksum_mismatch (fun _ => "x") [0] [1]
      mismatchMeta "y" rfl (by decide) "a.db" "a.db.meta.json" [] []⟩

/-! ### C6: duplicate SKU insert fails and changes nothing -/

/-- C6: adding a catalog item whose SKU equals the SKU of an already stored
product raises the unique-constraint `IntegrityError` to the caller
unswallowed, and leaves the store — in particular the `products` row
count — exactly as it was. -/
theorem add_product_duplicate_sku_fails (s : Store) (name category sku : String)
    (q : Int)
    (hdup : s.conn.pending.products.any (fun r => r.sku == some sku) = true) :
    add_product s name category (some sku) q = (.error .integrityError, s) ∧
    ((add_product s name category (some sku) q).2).conn.committed.products.length =
      s.conn.committed.products.length := by
  have h : add_product s name category (some sku) q = (.error .integrityError, s) := by
    simp [add_product, insert_products, hdup]
  exact ⟨h, by rw [h]⟩

/-- C6 witness: inserting a second product with SKU `TS001` into the store
already holding one. -/
theorem add_product_duplicate_sku_fails_witness :
    (storeWithTee.conn.pending.products.any (fun r => r.sku == some "TS001") = true) ∧
    (add_product storeWithTee "Other" "blank" (some "TS001") 3 =
        (.error .integrityError, storeWithTee) ∧
      ((add_product storeWithTee "Other" "blank" (some "TS001") 3).2).conn.committed.products.length =
        storeWithTee.conn.committed.products.length) :=
  ⟨by decide, add_product_duplicate_sku_fails storeWithTee "Other" "blank" "TS001" 3 (by decide)⟩

/-! ### C1: `add_sale` is not atomic -/

/-- C1: evaluation at the failing input. `add_sale` on the store holding
product 1 (quantity 10), with one valid line (2 units of product 1) and one
line referencing the nonexistent product 2, raises the foreign-key
`IntegrityError` — yet after the call one `sales` row and one `sale_items`
row are durably committed and product 1's quantity is decremented to 8,
because every nested `insert`/`update` issued its own `commit()` and the
final `conn.rollback()` had nothing left to undo. The claim (and the
method's own `BEGIN`/`rollback` structure) requires that nothing be
persisted. -/
theorem add_sale_persists_partial_state_on_failure :
    c1SaleResult.1 = .error .integrityError ∧
    c1SaleResult.2.conn.committed.sales.length = 1 ∧
    c1SaleResult.2.conn.committed.sale_items.length = 1 ∧
    productQty c1SaleResult.2.conn.committed 1 = some 8 := by
  refine ⟨rfl, by decide, by decide, by decide⟩

/-! ### C2: `adjust_product_quantity` is not atomic -/

/-- C2: evaluation at the failing input. When the audit-log insert of
`adjust_product_quantity(1, +5, 'user1')` raises an engine error, the
operation returns `False` and writes no audit-log or inventory-history
row — but the quantity update, committed by the nested `update()` before
the failure, survives the `conn.rollback()`: the committed quantity is 15,
not the pre-call 10 the claim requires. -/
theorem adjust_quantity_persists_update_on_audit_failure :
    c2AdjustResult.1 = false ∧
    productQty c2AdjustResult.2.conn.committed 1 = some 15 ∧
    c2AdjustResult.2.conn.committed.audit_log.length = 0 ∧
    c2AdjustResult.2.conn.committed.inventory_history.length = 0 := by
  refine ⟨by decide, by decide, by decide, by decide⟩

/-! ### C3: table-name cache invalidation misses keys that do not mention
the table -/

/-- C3 counterexample: after `get_product_by_sku('TS001')` is cached and
`adjust_product_quantity(1, +5, ...)` commits quantity 15 and invalidates
the `products` pattern, the SKU lookup's cache key
`_get_product_by_sku_impl:('TS001',):[]` does not contain `products`, so
the next `get_product_by_sku('TS001')` is served from the cache (0 queries)
and still reports quantity 10 while the table durably holds 15 — the write
to `products` did not invalidate this previously cached read. -/
theorem sku_lookup_stale_after_products_write :
    ((get_product_by_sku c3AfterAdjust "TS001").1).map (·.quantity) = some 10 ∧
    (get_product_by_sku c3AfterAdjust "TS001").2.1 = 0 ∧
    productQty c3AfterAdjust.conn.committed 1 = some 15 := by
  refine ⟨by decide, by decide, by decide⟩

/-- C3 (amended): what the table-name invalidation does guarantee: a write
to `products` (here the `update` issued by the quantity adjustment) removes
every cache entry whose key contains `products`; since every
`_get_by_id_impl` key for the `products` table does, any subsequent
`get_product` recomputes its answer freshly from the table (one query)
instead of serving a stale entry. Cached reads whose keys do not mention
the table name (the SKU lookup above) are the ones left stale. -/
theorem get_by_id_fresh_after_products_write (s : Store) (pid : Nat)
    (newQty : Int) (pid' : Nat) :
    (get_product ((update_products_quantity s pid newQty).2) pid').1 =
      findProduct ((update_products_quantity s pid newQty).2).conn.pending pid' ∧
    (get_product ((update_products_quantity s pid newQty).2) pid').2.1 = 1 := by
  have hkey : dictGet ((update_products_quantity s pid newQty).2).cache
      (productKey pid') = none := by
    have h2 : (update_products_quantity s pid newQty).2 =
        invalidate_cache
          (commitConn { s with conn := { s.conn with pending :=
            { s.conn.pending with products := s.conn.pending.products.map (fun r =>
              if r.product_id == pid then
                { r with quantity := newQty, updated_at := s.now }
              else r) } } })
          (some "products".data) := rfl
    rw [h2]
    exact dictGet_invalidate_of_sub _ _ _ (productKey_has_products pid')
  constructor <;> simp [get_product, get_from_cache, hkey]

/-! ### C4: cache transparency holds only for non-`None` results -/

/-- C4 counterexample: `get_product(1)` on the fresh empty store returns
`None` twice; the decorator cached the `None` but cannot serve it
(`if cached_value is not None`), so the second call re-executes the
underlying `SELECT` (its query count is 1, not 0), refuting the claim that
the second of two identical back-to-back reads never re-executes the
query. -/
theorem cached_none_read_reexecutes :
    c4FirstRead.1 = none ∧
    (get_product c4FirstRead.2.2 1).1 = none ∧
    (get_product c4FirstRead.2.2 1).2.1 = 1 := by
  refine ⟨by decide, by decide, by decide⟩

/-- `set_in_cache` touches only the two cache dicts. -/
theorem set_in_cache_conn (s : Store) (k : List Char) (v : CVal)
    (ttl : Option Nat) : (set_in_cache s k v ttl).conn = s.conn := by
  unfold set_in_cache
  dsimp only
  split
  · split <;> rfl
  · rfl

/-- `set_in_cache` does not advance the clock. -/
theorem set_in_cache_now (s : Store) (k : List Char) (v : CVal)
    (ttl : Option Nat) : (set_in_cache s k v ttl).now = s.now := by
  unfold set_in_cache
  dsimp only
  split
  · split <;> rfl
  · rfl

/-- The key just stored by `set_in_cache` reads back as the stored value. -/
theorem set_in_cache_get_self (s : Store) (k : List Char) (v : CVal)
    (ttl : Option Nat) :
    dictGet (set_in_cache s k v ttl).cache k = some v := by
  unfold set_in_cache
  dsimp only
  exact dictGet_dictSet_self _ _ _

/-- The key just stored by `set_in_cache` has expiry `now + ttl` (default
TTL when none is given). -/
theorem set_in_cache_get_ttl_self (s : Store) (k : List Char) (v : CVal)
    (ttl : Option Nat) :
    dictGet (set_in_cache s k v ttl).cache_ttl k =
      some (s.now + ttl.getD default_ttl) := by
  unfold set_in_cache
  dsimp only
  exact dictGet_dictSet_self _ _ _

/-- A positive `_get_from_cache` answer leaves the store untouched and
reflects the stored binding. -/
theorem get_from_cache_some_state (s : Store) (k : List Char) (v : CVal)
    (s' : Store) (h : get_from_cache s k = (some v, s')) :
    s' = s ∧ dictGet s.cache k = some v := by
  unfold get_from_cache at h
  rcases hc : dictGet s.cache k with _ | w
  · rw [hc] at h
    simp at h
  · rw [hc] at h
    rcases ht : dictGet s.cache_ttl k with _ | e
    · rw [ht] at h
      dsimp only at h
      injection h with h1 h2
      exact ⟨h2.symm, h1⟩
    · rw [ht] at h
      dsimp only at h
      by_cases he : e < s.now
      · rw [if_pos he] at h
        simp at h
      · rw [if_neg he] at h
        injection h with h1 h2
        exact ⟨h2.symm, h1⟩

/-- `_get_from_cache` hits when the key is bound and not expired. -/
theorem get_from_cache_hit (s : Store) (k : List Char) (v : CVal) (e : Nat)
    (hc : dictGet s.cache k = some v) (ht : dictGet s.cache_ttl k = some e)
    (hne : ¬ e < s.now) : get_from_cache s k = (some v, s) := by
  unfold get_from_cache
  rw [hc, ht]
  dsimp only
  rw [if_neg hne]

/-- C4 (amended): cache transparency for reads that find a row: when
`get_product(pid)` returns a (non-`None`) result, calling it again
immediately, with no intervening write, returns the identical result and
executes no query against the connection — the second call is served from
the cache. (A `None` first result is returned identically too, but is never
cached, so the second call re-executes the query: the counterexample.) -/
theorem cached_read_transparent (s : Store) (pid : Nat)
    (h : (get_product s pid).1 ≠ none) :
    (get_product (get_product s pid).2.2 pid).1 = (get_product s pid).1 ∧
    (get_product (get_product s pid).2.2 pid).2.1 = 0 := by
  rcases hgc : get_from_cache s (productKey pid) with ⟨o, s1⟩
  rcases o with _ | w
  · -- miss: the wrapper computes and stores the result
    have hres : (get_product s pid) =
        (findProduct s1.conn.pending pid, 1,
          set_in_cache s1 (productKey pid) (findProduct s1.conn.pending pid) none) := by
      unfold get_product
      rw [hgc]
    rcases hr : findProduct s1.conn.pending pid with _ | r
    · rw [hres, hr] at h
      simp at h
    · rw [hres, hr]
      have hhit : get_from_cache
          (set_in_cache s1 (productKey pid) (some r) none) (productKey pid) =
          (some (some r), set_in_cache s1 (productKey pid) (some r) none) := by
        refine get_from_cache_hit _ _ _ _ (set_in_cache_get_self _ _ _ _)
          (set_in_cache_get_ttl_self _ _ _ _) ?_
        rw [set_in_cache_now]
        omega
      constructor
      · show (get_product _ pid).1 = _
        unfold get_product
        rw [hhit]
      · show (get_product _ pid).2.1 = 0
        unfold get_product
        rw [hhit]
  · rcases w with _ | r
    · -- a stored Python None: the wrapper treats it as a miss
      have hres : (get_product s pid) =
          (findProduct s1.conn.pending pid, 1,
            set_in_cache s1 (productKey pid) (findProduct s1.conn.pending pid) none) := by
        unfold get_product
        rw [hgc]
      rcases hr : findProduct s1.conn.pending pid with _ | r
      · rw [hres, hr] at h
        simp at h
      · rw [hres, hr]
        have hhit : get_from_cache
            (set_in_cache s1 (productKey pid) (some r) none) (productKey pid) =
            (some (some r), set_in_cache s1 (productKey pid) (some r) none) := by
          refine get_from_cache_hit _ _ _ _ (set_in_cache_get_self _ _ _ _)
            (set_in_cache_get_ttl_self _ _ _ _) ?_
          rw [set_in_cache_now]
          omega
        constructor
        · show (get_product _ pid).1 = _
          unfold get_product
          rw [hhit]
        · show (get_product _ pid).2.1 = 0
          unfold get_product
          rw [hhit]
    · -- cache hit: the call leaves the store unchanged, so the second call
      -- repeats the identical hit
      obtain ⟨hs, _⟩ := get_from_cache_some_state s (productKey pid) (some r) s1 hgc
      have hres : (get_product s pid) = (some r, 0, s1) := by
        unfold get_product
        rw [hgc]
      rw [hres, hs]
      constructor
      · show (get_product s pid).1 = some r
        unfold get_product
        rw [hgc]
      · show (get_product s pid).2.1 = 0
        unfold get_product
        rw [hgc]

/-- C4 (amended) witness: on the store holding product 1, the first read
returns the row and the repeated read is a query-free cache hit. -/
theorem cached_read_transparent_witness :
    ((get_product storeWithTee 1).1 ≠ none) ∧
    ((get_product (get_product storeWithTee 1).2.2 1).1 =
        (get_product storeWithTee 1).1 ∧
      (get_product (get_product storeWithTee 1).2.2 1).2.1 = 0) :=
  ⟨by decide, cached_read_transparent storeWithTee 1 (by decide)⟩

/-! ### Dictionary lemmas for the cache invariant (C9) -/

/-- `dictSet` keeps the key list unless the key is new, in which case it is
appended. -/
theorem keysOf_dictSet {β : Type} (d : List (List Char × β)) (k : List Char)
    (v : β) :
    keysOf (dictSet d k v) =
      if k ∈ keysOf d then keysOf d else keysOf d ++ [k] := by
  induction d with
  | nil =>
    show [k] = if k ∈ ([] : List (List Char)) then [] else [] ++ [k]
    rw [if_neg (List.not_mem_nil k)]
    rfl
  | cons kv rest ih =>
    cases kv with
    | mk k' v' =>
      by_cases h : k' = k
      · simp only [dictSet, if_pos h, keysOf, List.map_cons]
        rw [if_pos (show k ∈ k' :: List.map (fun x => x.1) rest from
          h ▸ List.mem_cons_self _ _)]
        rw [h]
      · simp only [dictSet, if_neg h, keysOf, List.map_cons]
        have hmem : (k ∈ k' :: List.map (fun x => x.1) rest) ↔
            k ∈ List.map (fun x => x.1) rest := by
          constructor
          · intro hm
            rcases List.mem_cons.mp hm with he | hm
            · exact absurd he.symm h
            · exact hm
          · exact fun hm => List.mem_cons_of_mem _ hm
        simp only [keysOf] at ih
        by_cases hm : k ∈ List.map (fun x => x.1) rest
        · rw [if_pos (hmem.mpr hm), ih, if_pos hm]
        · rw [if_neg (fun hx => hm (hmem.mp hx)), ih, if_neg hm]
          rfl

/-- `dictSet` grows the dict only when the key is new. -/
theorem length_dictSet {β : Type} (d : List (List Char × β)) (k : List Char)
    (v : β) :
    (dictSet d k v).length =
      if k ∈ keysOf d then d.length else d.length + 1 := by
  have h1 : (dictSet d k v).length = (keysOf (dictSet d k v)).length :=
    (List.length_map _ _).symm
  have h2 : d.length = (keysOf d).length := (List.length_map _ _).symm
  rw [h1, keysOf_dictSet, h2]
  by_cases hm : k ∈ keysOf d
  · rw [if_pos hm, if_pos hm]
  · rw [if_neg hm, if_neg hm, List.length_append]
    rfl

/-- `dictDel` filters the key list. -/
theorem keysOf_dictDel {β : Type} (d : List (List Char × β)) (k : List Char) :
    keysOf (dictDel d k) = (keysOf d).filter (fun x => !(decide (x = k))) := by
  induction d with
  | nil => rfl
  | cons kv rest ih =>
    cases kv with
    | mk k' v' =>
      by_cases h : k' = k
      · show keysOf (dictDel ((k', v') :: rest) k) =
          List.filter _ (k' :: keysOf rest)
        rw [List.filter_cons_of_neg (by simp [h])]
        show keysOf (if k' = k then dictDel rest k else _) = _
        rw [if_pos h]
        exact ih
      · show keysOf (if k' = k then dictDel rest k else (k', v') :: dictDel rest k) =
          List.filter _ (k' :: keysOf rest)
        rw [if_neg h, List.filter_cons_of_pos (by simp [h])]
        show k' :: keysOf (dictDel rest k) = k' :: List.filter _ (keysOf rest)
        rw [ih]

/-- Deleting a key never grows the dict. -/
theorem length_dictDel_le {β : Type} (d : List (List Char × β)) (k : List Char) :
    (dictDel d k).length ≤ d.length := by
  induction d with
  | nil => exact Nat.le_refl _
  | cons kv rest ih =>
    cases kv with
    | mk k' v' =>
      show (if k' = k then dictDel rest k else (k', v') :: dictDel rest k).length ≤
        rest.length + 1
      by_cases h : k' = k
      · rw [if_pos h]
        exact Nat.le_succ_of_le ih
      · rw [if_neg h]
        exact Nat.succ_le_succ ih

/-- Deleting an absent key changes nothing. -/
theorem dictDel_not_mem {β : Type} (d : List (List Char × β)) (k : List Char)
    (h : k ∉ keysOf d) : dictDel d k = d := by
  induction d with
  | nil => rfl
  | cons kv rest ih =>
    cases kv with
    | mk k' v' =>
      have h1 : k' ≠ k := fun he => h (by rw [he]; exact List.mem_cons_self _ _)
      have h2 : k ∉ keysOf rest := fun hm => h (List.mem_cons_of_mem _ hm)
      show (if k' = k then dictDel rest k else (k', v') :: dictDel rest k) = _
      rw [if_neg h1, ih h2]

/-- On a duplicate-free dict, deleting a present key removes exactly one
entry. -/
theorem length_dictDel_mem {β : Type} (d : List (List Char × β)) (k : List Char)
    (hn : (keysOf d).Nodup) (hm : k ∈ keysOf d) :
    (dictDel d k).length + 1 = d.length := by
  induction d with
  | nil => exact absurd hm (List.not_mem_nil k)
  | cons kv rest ih =>
    cases kv with
    | mk k' v' =>
      have hn' := List.nodup_cons.mp hn
      show (if k' = k then dictDel rest k else (k', v') :: dictDel rest k).length + 1 =
        rest.length + 1
      by_cases h : k' = k
      · rw [if_pos h, dictDel_not_mem rest k (by rw [← h]; exact hn'.1)]
      · rw [if_neg h]
        rcases List.mem_cons.mp hm with he | hmr
        · exact absurd he.symm h
        · show (dictDel rest k).length + 1 + 1 = rest.length + 1
          rw [ih hn'.2 hmr]

/-- Filtering on the key commutes with taking the key list. -/
theorem keysOf_filter {β : Type} (d : List (List Char × β))
    (p : List Char → Bool) :
    keysOf (d.filter (fun kv => p kv.1)) = (keysOf d).filter p := by
  induction d with
  | nil => rfl
  | cons kv rest ih =>
    simp only [keysOf, List.map_cons]
    simp only [keysOf] at ih
    by_cases h : p kv.1
    · simp [List.filter_cons, h, ih]
    · have hF : p kv.1 = false := by simpa using h
      simp [List.filter_cons, hF, ih]

/-- Python's first-minimum `min` over a nonempty dict: the result is a
binding of the dict whose value is a lower bound of all values. -/
theorem pythonMinKey_spec (d : List (List Char × Nat)) (hd : d ≠ []) :
    ∃ k0 e0, pythonMinKey d = some (k0, e0) ∧ (k0, e0) ∈ d ∧
      ∀ p ∈ d, e0 ≤ p.2 := by
  induction d with
  | nil => exact absurd rfl hd
  | cons kv rest ih =>
    cases kv with
    | mk k e =>
      by_cases hr : rest = []
      · subst hr
        refine ⟨k, e, rfl, List.mem_singleton_self _, ?_⟩
        intro p hp
        rcases List.mem_singleton.mp hp with rfl
        exact Nat.le_refl _
      · obtain ⟨k0, e0, hmin, hmem, hle⟩ := ih hr
        by_cases hlt : e0 < e
        · refine ⟨k0, e0, ?_, List.mem_cons_of_mem _ hmem, ?_⟩
          · show (match pythonMinKey rest with
              | none => some (k, e)
              | some (k', e') => if e' < e then some (k', e') else some (k, e)) =
              some (k0, e0)
            rw [hmin]
            exact if_pos hlt
          · intro p hp
            rcases List.mem_cons.mp hp with rfl | hp
            · exact Nat.le_of_lt hlt
            · exact hle p hp
        · refine ⟨k, e, ?_, List.mem_cons_self _ _, ?_⟩
          · show (match pythonMinKey rest with
              | none => some (k, e)
              | some (k', e') => if e' < e then some (k', e') else some (k, e)) =
              some (k, e)
            rw [hmin]
            exact if_neg hlt
          · intro p hp
            rcases List.mem_cons.mp hp with rfl | hp
            · exact Nat.le_refl _
            · exact Nat.le_trans (Nat.le_of_not_lt hlt) (hle p hp)

/-- `_get_from_cache` preserves the cache invariant (it either leaves the
dicts alone or deletes one expired key from both). -/
theorem cacheInv_get_from_cache (s : Store) (k : List Char) (h : CacheInv s) :
    CacheInv (get_from_cache s k).2 := by
  obtain ⟨h1, h2, h3⟩ := h
  unfold get_from_cache
  rcases hc : dictGet s.cache k with _ | v
  · exact ⟨h1, h2, h3⟩
  · rcases ht : dictGet s.cache_ttl k with _ | e
    · exact ⟨h1, h2, h3⟩
    · dsimp only
      by_cases he : e < s.now
      · rw [if_pos he]
        refine ⟨?_, ?_, ?_⟩
        · show keysOf (dictDel s.cache k) = keysOf (dictDel s.cache_ttl k)
          rw [keysOf_dictDel, keysOf_dictDel, h1]
        · show (keysOf (dictDel s.cache k)).Nodup
          rw [keysOf_dictDel]
          exact h2.filter _
        · show (dictDel s.cache k).length ≤ max_cache_size
          exact Nat.le_trans (length_dictDel_le _ _) h3
      · rw [if_neg he]
        exact ⟨h1, h2, h3⟩

/-- `_set_in_cache` preserves the cache invariant (evicting the
nearest-expiry key from both dicts when full, then binding the new key in
both). -/
theorem cacheInv_set_in_cache (s : Store) (k : List Char) (v : CVal)
    (ttl : Option Nat) (h : CacheInv s) : CacheInv (set_in_cache s k v ttl) := by
  obtain ⟨h1, h2, h3⟩ := h
  have hKeysSet : ∀ (c : List (List Char × CVal)) (t : List (List Char × Nat)) (e : Nat),
      keysOf c = keysOf t → (keysOf c).Nodup →
      keysOf (dictSet c k v) = keysOf (dictSet t k e) ∧
      (keysOf (dictSet c k v)).Nodup := by
    intro c t e hk hn
    constructor
    · rw [keysOf_dictSet, keysOf_dictSet, hk]
    · rw [keysOf_dictSet]
      by_cases hm : k ∈ keysOf c
      · rw [if_pos hm]
        exact hn
      · rw [if_neg hm]
        refine List.nodup_append.mpr ⟨hn, List.nodup_singleton k, ?_⟩
        intro x hx hx'
        rcases List.mem_singleton.mp hx' with rfl
        exact hm hx
  unfold set_in_cache
  dsimp only
  by_cases hfull : max_cache_size ≤ s.cache.length
  · rw [if_pos hfull]
    have hlen : s.cache.length = max_cache_size := Nat.le_antisymm h3 hfull
    have httlLen : s.cache_ttl.length = s.cache.length := by
      have hmap := congrArg List.length h1
      simpa [keysOf] using hmap.symm
    have hne : s.cache_ttl ≠ [] := by
      intro hnil
      rw [hnil] at httlLen
      simp at httlLen
      rw [← httlLen] at hlen
      simp [max_cache_size] at hlen
    obtain ⟨k0, e0, hmin, hmem, _⟩ := pythonMinKey_spec s.cache_ttl hne
    rw [hmin]
    have hk0 : k0 ∈ keysOf s.cache := by
      rw [h1]
      exact List.mem_map.mpr ⟨(k0, e0), hmem, rfl⟩
    have hkeys' : keysOf (dictDel s.cache k0) = keysOf (dictDel s.cache_ttl k0) := by
      rw [keysOf_dictDel, keysOf_dictDel, h1]
    have hnod' : (keysOf (dictDel s.cache k0)).Nodup := by
      rw [keysOf_dictDel]
      exact h2.filter _
    have hdelLen : (dictDel s.cache k0).length + 1 = s.cache.length :=
      length_dictDel_mem _ _ h2 hk0
    obtain ⟨hks, hnd⟩ := hKeysSet (dictDel s.cache k0) (dictDel s.cache_ttl k0)
      (s.now + ttl.getD default_ttl) hkeys' hnod'
    refine ⟨hks, hnd, ?_⟩
    show (dictSet (dictDel s.cache k0) k v).length ≤ max_cache_size
    rw [length_dictSet]
    by_cases hm : k ∈ keysOf (dictDel s.cache k0)
    · rw [if_pos hm]
      omega
    · rw [if_neg hm]
      omega
  · rw [if_neg hfull]
    obtain ⟨hks, hnd⟩ := hKeysSet s.cache s.cache_ttl
      (s.now + ttl.getD default_ttl) h1 h2
    refine ⟨hks, hnd, ?_⟩
    show (dictSet s.cache k v).length ≤ max_cache_size
    rw [length_dictSet]
    by_cases hm : k ∈ keysOf s.cache
    · rw [if_pos hm]
      exact h3
    · rw [if_neg hm]
      omega

/-- `_invalidate_cache` preserves the cache invariant (full clear, or the
same key set removed from both dicts). -/
theorem cacheInv_invalidate_cache (s : Store) (p : Option (List Char))
    (h : CacheInv s) : CacheInv (invalidate_cache s p) := by
  obtain ⟨h1, h2, h3⟩ := h
  cases p with
  | none => exact ⟨rfl, List.nodup_nil, by simp [invalidate_cache, max_cache_size]⟩
  | some p =>
    refine ⟨?_, ?_, ?_⟩
    · show keysOf (s.cache.filter (fun kv => !(isSubStr p kv.1))) =
        keysOf (s.cache_ttl.filter (fun kv =>
          !(((keysOf s.cache).filter (fun x => isSubStr p x)).contains kv.1)))
      rw [keysOf_filter s.cache (fun x => !(isSubStr p x)),
        keysOf_filter s.cache_ttl
          (fun x => !(((keysOf s.cache).filter (fun x => isSubStr p x)).contains x)),
        h1]
      refine List.filter_congr ?_
      intro x hx
      by_cases hsub : isSubStr p x = true
      · rw [hsub]
        have hmem : x ∈ (keysOf s.cache_ttl).filter (fun x => isSubStr p x) :=
          List.mem_filter.mpr ⟨hx, hsub⟩
        rw [List.contains_iff_exists_mem_beq.mpr ⟨x, hmem, beq_self_eq_true x⟩]
      · have hF : isSubStr p x = false := Bool.eq_false_iff.mpr hsub
        rw [hF]
        have hnot : x ∉ (keysOf s.cache_ttl).filter (fun x => isSubStr p x) :=
          fun hmem => hsub (List.mem_filter.mp hmem).2
        have hcf : ((keysOf s.cache_ttl).filter (fun x => isSubStr p x)).contains x = false := by
          rw [Bool.eq_false_iff]
          intro hc
          obtain ⟨y, hy, hbeq⟩ := List.contains_iff_exists_mem_beq.mp hc
          rw [show x = y from eq_of_beq hbeq] at hnot
          exact hnot hy
        rw [hcf]
    · show (keysOf (s.cache.filter (fun kv => !(isSubStr p kv.1)))).Nodup
      rw [keysOf_filter s.cache (fun x => !(isSubStr p x))]
      exact h2.filter _
    · show (s.cache.filter (fun kv => !(isSubStr p kv.1))).length ≤ max_cache_size
      exact Nat.le_trans (List.length_filter_le _ _) h3

/-- C9: after every cache operation — lookup, store, pattern invalidation,
and the read-through wrapper — `self.cache` and `self.cache_ttl` hold
exactly the same keys (duplicate-free, in the same order) and the entry
count never exceeds `max_cache_size` (100); moreover a store into a full
cache first evicts exactly one entry, the first one whose recorded expiry
is minimal (Python's `min(self.cache_ttl.keys(), key=...)`), before binding
the new key. -/
theorem cache_ops_preserve_invariant (s : Store) (op : CacheOp)
    (h : CacheInv s) :
    CacheInv (cacheStep s op) ∧
    (∀ k v ttl, op = .set k v ttl → s.cache.length = max_cache_size →
      ∃ k0 e0, pythonMinKey s.cache_ttl = some (k0, e0) ∧
        (k0, e0) ∈ s.cache_ttl ∧ (∀ q ∈ s.cache_ttl, e0 ≤ q.2) ∧
        (cacheStep s op).cache = dictSet (dictDel s.cache k0) k v ∧
        (dictDel s.cache k0).length + 1 = s.cache.length ∧
        (cacheStep s op).cache.length ≤ max_cache_size) := by
  constructor
  · cases op with
    | get k => exact cacheInv_get_from_cache s k h
    | set k v ttl => exact cacheInv_set_in_cache s k v ttl h
    | invalidate p => exact cacheInv_invalidate_cache s p h
    | readThrough k v ttl =>
      show CacheInv (match get_from_cache s k with
        | (some (some _), s') => s'
        | (_, s') => set_in_cache s' k v ttl)
      rcases hg : get_from_cache s k with ⟨o, s'⟩
      have hs' : CacheInv s' := by
        have hinv := cacheInv_get_from_cache s k h
        rw [hg] at hinv
        exact hinv
      rcases o with _ | w
      · exact cacheInv_set_in_cache s' k v ttl hs'
      · rcases w with _ | r
        · exact cacheInv_set_in_cache s' k v ttl hs'
        · exact hs'
  · intro k v ttl hop hfull
    subst hop
    obtain ⟨h1, h2, h3⟩ := h
    have hfull' : max_cache_size ≤ s.cache.length := Nat.le_of_eq hfull.symm
    have httlLen : s.cache_ttl.length = s.cache.length := by
      have hmap := congrArg List.length h1
      simpa [keysOf] using hmap.symm
    have hne : s.cache_ttl ≠ [] := by
      intro hnil
      rw [hnil] at httlLen
      simp at httlLen
      rw [← httlLen] at hfull
      simp [max_cache_size] at hfull
    obtain ⟨k0, e0, hmin, hmem, hle⟩ := pythonMinKey_spec s.cache_ttl hne
    have hk0 : k0 ∈ keysOf s.cache := by
      rw [h1]
      exact List.mem_map.mpr ⟨(k0, e0), hmem, rfl⟩
    have hcacheEq : (cacheStep s (.set k v ttl)).cache =
        dictSet (dictDel s.cache k0) k v := by
      show (set_in_cache s k v ttl).cache = _
      unfold set_in_cache
      dsimp only
      rw [if_pos hfull', hmin]
    refine ⟨k0, e0, hmin, hmem, hle, hcacheEq, length_dictDel_mem _ _ h2 hk0, ?_⟩
    exact (cacheInv_set_in_cache s k v ttl ⟨h1, h2, h3⟩).2.2

/-- C9 witness: the invariant holds for the fresh store and is preserved by
a concrete cache operation. -/
theorem cache_ops_preserve_invariant_witness :
    CacheInv mkStore ∧
    (CacheInv (cacheStep mkStore (.set "k".data none none)) ∧
      (∀ k v ttl, CacheOp.set "k".data none none = .set k v ttl →
        mkStore.cache.length = max_cache_size →
        ∃ k0 e0, pythonMinKey mkStore.cache_ttl = some (k0, e0) ∧
          (k0, e0) ∈ mkStore.cache_ttl ∧ (∀ q ∈ mkStore.cache_ttl, e0 ≤ q.2) ∧
          (cacheStep mkStore (.set "k".data none none)).cache =
            dictSet (dictDel mkStore.cache k0) k v ∧
          (dictDel mkStore.cache k0).length + 1 = mkStore.cache.length ∧
          (cacheStep mkStore (.set "k".data none none)).cache.length ≤
            max_cache_size)) :=
  ⟨⟨rfl, List.nodup_nil, Nat.zero_le _⟩,
   cache_ops_preserve_invariant mkStore (.set "k".data none none)
     ⟨rfl, List.nodup_nil, Nat.zero_le _⟩⟩

/-! ### Support lemmas for the quantity/history pairing (C5) -/

/-- `invalidate_cache` touches only the cache dicts. -/
theorem invalidate_cache_conn (s : Store) (p : Option (List Char)) :
    (invalidate_cache s p).conn = s.conn := by
  cases p <;> rfl

/-- `_get_from_cache` touches neither connection nor clock. -/
theorem get_from_cache_conn_now (s : Store) (k : List Char) :
    (get_from_cache s k).2.conn = s.conn ∧ (get_from_cache s k).2.now = s.now := by
  unfold get_from_cache
  rcases hc : dictGet s.cache k with _ | v
  · exact ⟨rfl, rfl⟩
  · rcases ht : dictGet s.cache_ttl k with _ | e
    · exact ⟨rfl, rfl⟩
    · dsimp only
      by_cases he : e < s.now
      · rw [if_pos he]
        exact ⟨rfl, rfl⟩
      · rw [if_neg he]
        exact ⟨rfl, rfl⟩

/-- Pattern invalidation, at the list level: a key containing the pattern is
gone afterwards. -/
theorem dictGet_filter_sub {β : Type} (d : List (List Char × β)) (p k : List Char)
    (hk : isSubStr p k = true) :
    dictGet (d.filter (fun kv => !(isSubStr p kv.1))) k = none := by
  unfold dictGet
  simp only [Option.map_eq_none']
  rw [List.find?_eq_none]
  intro kv hkv
  rcases List.mem_filter.mp hkv with ⟨_, hpred⟩
  simp only [Bool.not_eq_true'] at hpred
  intro hEq
  have hk' : kv.1 = k := of_decide_eq_true hEq
  rw [hk'] at hpred
  simp [hk] at hpred

/-- `find?` commutes with a map that does not disturb the predicate. -/
theorem find?_map_pred (f : ProductRow → ProductRow) (p : ProductRow → Bool)
    (hf : ∀ r, p (f r) = p r) (l : List ProductRow) :
    (l.map f).find? p = (l.find? p).map f := by
  induction l with
  | nil => rfl
  | cons a rest ih =>
    simp only [List.map_cons, List.find?]
    rw [hf a]
    by_cases h : p a = true
    · rw [h]
      rfl
    · rw [Bool.eq_false_iff.mpr h]
      dsimp only
      exact ih

/-- A found row witnesses `any`. -/
theorem any_of_find?_some (l : List ProductRow) (pid : Nat) (p : ProductRow)
    (h : l.find? (fun r => r.product_id == pid) = some p) :
    l.any (fun r => r.product_id == pid) = true := by
  have hpred := List.find?_some h
  exact List.any_eq_true.mpr ⟨p, List.mem_of_find?_eq_some h, hpred⟩

/-- The per-row updater of `update('products', {'quantity': q, ...},
'product_id = ?', (pid,))` leaves the row's id alone. -/
theorem updateRow_id (pid : Nat) (q : Int) (t : Nat) (r : ProductRow) :
    ((fun r : ProductRow => if r.product_id == pid then
        { r with quantity := q, updated_at := t } else r) r).product_id =
      r.product_id := by
  by_cases h : (r.product_id == pid) = true
  · simp [h]
  · simp [Bool.eq_false_iff.mpr h]

/-- `get_product` under a product-consistent cache returns the table's row
(first match), touching neither connection nor clock. -/
theorem get_product_ready (s : Store) (pid : Nat) (p : ProductRow)
    (hcache : ∀ r : ProductRow, dictGet s.cache (productKey pid) = some (some r) →
      findProduct s.conn.pending pid = some r)
    (hp : findProduct s.conn.pending pid = some p) :
    ∃ n s1, get_product s pid = (some p, n, s1) ∧ s1.conn = s.conn ∧
      s1.now = s.now := by
  rcases hg : get_from_cache s (productKey pid) with ⟨o, s1⟩
  have hconn : s1.conn = s.conn ∧ s1.now = s.now := by
    have hcn := get_from_cache_conn_now s (productKey pid)
    rw [hg] at hcn
    exact hcn
  rcases o with _ | w
  · -- miss
    refine ⟨1, set_in_cache s1 (productKey pid) (findProduct s1.conn.pending pid) none, ?_, ?_, ?_⟩
    · unfold get_product
      rw [hg]
      dsimp only
      rw [show findProduct s1.conn.pending pid = some p from hconn.1 ▸ hp]
    · rw [set_in_cache_conn]
      exact hconn.1
    · rw [set_in_cache_now]
      exact hconn.2
  · rcases w with _ | r
    · -- stored Python None: treated as a miss
      refine ⟨1, set_in_cache s1 (productKey pid) (findProduct s1.conn.pending pid) none, ?_, ?_, ?_⟩
      · unfold get_product
        rw [hg]
        dsimp only
        rw [show findProduct s1.conn.pending pid = some p from hconn.1 ▸ hp]
      · rw [set_in_cache_conn]
        exact hconn.1
      · rw [set_in_cache_now]
        exact hconn.2
    · -- hit: the cached row agrees with the table
      obtain ⟨hs1, hdg⟩ := get_from_cache_some_state s (productKey pid) (some r) s1 hg
      have hr : findProduct s.conn.pending pid = some r := hcache r hdg
      have hrp : r = p := by
        rw [hr] at hp
        exact Option.some.inj hp
      refine ⟨0, s1, ?_, by rw [hs1], by rw [hs1]⟩
      unfold get_product
      rw [hg, hrp]

/-- Effect of the `update('products', ...)` call of
`adjust_product_quantity`: the matching rows get the new quantity, the
change is committed, and every `products`-keyed cache entry is gone. -/
theorem update_products_spec (s : Store) (pid : Nat) (q : Int) :
    ∃ cnt s2, update_products_quantity s pid q = (cnt, s2) ∧
      s2.conn.pending.products = s.conn.pending.products.map (fun r =>
        if r.product_id == pid then { r with quantity := q, updated_at := s.now }
        else r) ∧
      s2.conn.pending.inventory_history = s.conn.pending.inventory_history ∧
      s2.conn.pending.nextHistoryId = s.conn.pending.nextHistoryId ∧
      s2.conn.committed = s2.conn.pending ∧
      s2.now = s.now ∧
      (∀ pid', dictGet s2.cache (productKey pid') = none) := by
  refine ⟨_, _, rfl, rfl, rfl, rfl, rfl, rfl, ?_⟩
  intro pid'
  exact dictGet_filter_sub s.cache _ _ (productKey_has_products pid')

/-- Effect of the `log_audit` insert: it succeeds, touches neither
`products` nor `inventory_history`, commits, and adds no cache entries. -/
theorem log_audit_spec (s : Store) (a et : String) (eid : Nat) (uid : String)
    (d : Option String) :
    ∃ lid s3, log_audit s a et eid uid d = (.ok lid, s3) ∧
      s3.conn.pending.products = s.conn.pending.products ∧
      s3.conn.pending.inventory_history = s.conn.pending.inventory_history ∧
      s3.conn.pending.nextHistoryId = s.conn.pending.nextHistoryId ∧
      s3.conn.committed = s3.conn.pending ∧
      s3.now = s.now ∧
      (∀ k, dictGet s.cache k = none → dictGet s3.cache k = none) := by
  refine ⟨_, _, rfl, rfl, rfl, rfl, rfl, rfl, ?_⟩
  intro k hk
  exact dictGet_filter_none s.cache _ k hk

/-- Effect of the `add_inventory_history` insert when the product exists:
it succeeds, appends exactly the one history row built from its arguments,
commits, and adds no cache entries. -/
theorem add_inventory_history_spec (s : Store) (pid : Nat)
    (prev newq chg : Int) (rsn : Option String) (uid : String)
    (hany : s.conn.pending.products.any (fun r => r.product_id == pid) = true) :
    ∃ hid s4, add_inventory_history s pid prev newq chg rsn uid = (.ok hid, s4) ∧
      s4.conn.pending.inventory_history = s.conn.pending.inventory_history ++
        [{ history_id := s.conn.pending.nextHistoryId, product_id := pid,
           previous_quantity := prev, new_quantity := newq, change_amount := chg,
           reason := rsn, user_id := uid, timestamp := s.now }] ∧
      s4.conn.pending.products = s.conn.pending.products ∧
      s4.conn.committed = s4.conn.pending ∧
      (∀ k, dictGet s.cache k = none → dictGet s4.cache k = none) := by
  unfold add_inventory_history insert_inventory_history
  simp only [hany, Bool.not_true]
  refine ⟨_, _, rfl, rfl, rfl, rfl, ?_⟩
  intro k hk
  exact dictGet_filter_none s.cache _ k hk

/-- One fault-free `adjust_product_quantity` call on a present product:
it returns `True`, leaves no uncommitted work, keeps the cached
`get_by_id` entry for the product consistent (the key is simply gone),
adds exactly `delta` to the product's stored quantity, and appends exactly
one inventory-history row whose columns satisfy
`new_quantity - previous_quantity == change_amount`. -/
theorem adjust_step (s : Store) (pid : Nat) (dlt : Int) (u : String)
    (rsn : Option String) (p : ProductRow)
    (hcache : ∀ r : ProductRow, dictGet s.cache (productKey pid) = some (some r) →
      findProduct s.conn.pending pid = some r)
    (hp : findProduct s.conn.pending pid = some p) :
    ∃ s', adjust_product_quantity s pid dlt u rsn .noFault = (true, s') ∧
      s'.conn.pending = s'.conn.committed ∧
      (∀ r : ProductRow, dictGet s'.cache (productKey pid) = some (some r) →
        findProduct s'.conn.pending pid = some r) ∧
      (∃ p', findProduct s'.conn.pending pid = some p' ∧
        p'.quantity = p.quantity + dlt) ∧
      (∃ hrow : HistoryRow,
        s'.conn.pending.inventory_history =
          s.conn.pending.inventory_history ++ [hrow] ∧
        hrow.product_id = pid ∧
        hrow.new_quantity - hrow.previous_quantity = hrow.change_amount ∧
        hrow.previous_quantity = p.quantity ∧ hrow.change_amount = dlt) := by
  obtain ⟨n, s1, hgp, hconn1, hnow1⟩ := get_product_ready s pid p hcache hp
  have hp1 : findProduct s1.conn.pending pid = some p := by rw [hconn1]; exact hp
  have hpred : (p.product_id == pid) = true := by
    unfold findProduct at hp1
    have hx := List.find?_some hp1
    exact hx
  have hfp : ∀ r : ProductRow,
      ((if r.product_id == pid then
          { r with quantity := p.quantity + dlt, updated_at := s1.now }
        else r : ProductRow).product_id == pid) = (r.product_id == pid) := by
    intro r
    rw [updateRow_id]
  obtain ⟨cnt, s2, hU, hUprod, hUhist, hUnid, hUcp, hUnow, hUcache⟩ :=
    update_products_spec s1 pid (p.quantity + dlt)
  obtain ⟨lid, s3, hL, hLprod, hLhist, hLnid, hLcp, hLnow, hLcache⟩ :=
    log_audit_spec s2 "adjust_quantity" "product" pid u
      (some (adjustDetails p.quantity (p.quantity + dlt) rsn))
  have hfind3 : findProduct s3.conn.pending pid =
      some { p with quantity := p.quantity + dlt, updated_at := s1.now } := by
    unfold findProduct
    rw [hLprod, hUprod]
    unfold findProduct at hp1
    rw [find?_map_pred _ _ hfp, hp1]
    have hpid : p.product_id = pid := by simpa using hpred
    simp [hpid]
  have hany3 : s3.conn.pending.products.any (fun r => r.product_id == pid) = true := by
    unfold findProduct at hfind3
    exact any_of_find?_some _ pid _ hfind3
  obtain ⟨hid, s4, hH, hHhist, hHprod, hHcp, hHcache⟩ :=
    add_inventory_history_spec s3 pid p.quantity (p.quantity + dlt) dlt rsn u hany3
  refine ⟨s4, ?_, ?_, ?_, ?_, ?_⟩
  · unfold adjust_product_quantity
    rw [hgp]
    dsimp only
    rw [hU]
    dsimp only
    rw [hL]
    dsimp only
    rw [hH]
  · exact hHcp.symm
  · intro r hr
    have h2 := hUcache pid
    have h3 := hLcache _ h2
    have h4 := hHcache _ h3
    rw [h4] at hr
    cases hr
  · refine ⟨{ p with quantity := p.quantity + dlt, updated_at := s1.now }, ?_, rfl⟩
    unfold findProduct
    rw [hHprod]
    unfold findProduct at hfind3
    exact hfind3
  · refine ⟨{ history_id := s3.conn.pending.nextHistoryId, product_id := pid, previous_quantity := p.quantity, new_quantity := p.quantity + dlt, change_amount := dlt, reason := rsn, user_id := u, timestamp := s3.now }, ?_, rfl, ?_, rfl, rfl⟩
    · rw [hHhist, hLhist, hUhist, hconn1]
    · show p.quantity + dlt - p.quantity = dlt
      omega

/-- Induction over a sequence of fault-free `adjust_product_quantity` calls
on one present product: every call succeeds, the quantity accumulates the
deltas, and each call appends one well-formed history row. -/
theorem runAdjusts_spec (pid : Nat) (calls : List AdjCall) :
    ∀ (s : Store) (p : ProductRow),
    s.conn.pending = s.conn.committed →
    (∀ r : ProductRow, dictGet s.cache (productKey pid) = some (some r) →
      findProduct s.conn.pending pid = some r) →
    findProduct s.conn.pending pid = some p →
    ∃ s', runAdjusts pid s calls = (s', List.replicate calls.length true) ∧
      s'.conn.pending = s'.conn.committed ∧
      (∃ p', findProduct s'.conn.pending pid = some p' ∧
        p'.quantity = p.quantity + sumDeltas calls) ∧
      (historyFor s'.conn.pending pid).length =
        (historyFor s.conn.pending pid).length + calls.length ∧
      (∀ h ∈ historyFor s'.conn.pending pid,
        h ∈ historyFor s.conn.pending pid ∨
          h.new_quantity - h.previous_quantity = h.change_amount) := by
  induction calls with
  | nil =>
    intro s p hpc hcache hp
    refine ⟨s, rfl, hpc, ⟨p, hp, by simp [sumDeltas]⟩, by simp, ?_⟩
    intro h hmem
    exact Or.inl hmem
  | cons c rest ih =>
    intro s p hpc hcache hp
    obtain ⟨s1, hrun1, hcp1, hcache1, ⟨p1, hp1, hq1⟩, hrow, hhist1, hrowpid,
      hroweq, hrowprev, hrowchg⟩ :=
      adjust_step s pid c.delta c.user c.reason p hcache hp
    obtain ⟨s2, hrun2, hcp2, ⟨p2, hp2, hq2⟩, hlen2, hmem2⟩ :=
      ih s1 p1 hcp1 hcache1 hp1
    have hhistFor1 : historyFor s1.conn.pending pid =
        historyFor s.conn.pending pid ++ [hrow] := by
      unfold historyFor
      rw [hhist1, List.filter_append]
      congr 1
      simp [hrowpid]
    refine ⟨s2, ?_, hcp2, ⟨p2, hp2, ?_⟩, ?_, ?_⟩
    · show runAdjusts pid s (c :: rest) = (s2, List.replicate (c :: rest).length true)
      unfold runAdjusts
      rw [hrun1]
      dsimp only
      rw [hrun2]
      rfl
    · have hsum : sumDeltas (c :: rest) = c.delta + sumDeltas rest := by
        simp [sumDeltas]
      rw [hq2, hq1, hsum]
      omega
    · rw [hlen2, hhistFor1, List.length_append]
      simp
      omega
    · intro h hmem
      rcases hmem2 h hmem with hmem1 | heq
      · rw [hhistFor1] at hmem1
        rcases List.mem_append.mp hmem1 with hmem0 | hmemrow
        · exact Or.inl hmem0
        · rcases List.mem_singleton.mp hmemrow with rfl
          exact Or.inr hroweq
      · exact Or.inr heq

/-- C5: for every product and every sequence of `adjust_product_quantity`
calls on it (with the engine raising no fault, so the only failure mode the
claim's scope leaves is an absent product — and this product is present),
every call reports success, the final stored quantity equals the initial
quantity plus the sum of the deltas of the successful calls (which are all
of them), the number of committed `inventory_history` rows for the product
equals the number of successful calls, and every such row satisfies
`new_quantity - previous_quantity == change_amount`. -/
theorem adjust_quantity_pairing (s : Store) (pid : Nat) (p : ProductRow)
    (calls : List AdjCall)
    (hpc : s.conn.pending = s.conn.committed)
    (hcache : ∀ r : ProductRow, dictGet s.cache (productKey pid) = some (some r) →
      findProduct s.conn.pending pid = some r)
    (hp : findProduct s.conn.pending pid = some p)
    (hh : historyFor s.conn.pending pid = []) :
    ∃ s', runAdjusts pid s calls = (s', List.replicate calls.length true) ∧
      productQty s'.conn.committed pid = some (p.quantity + sumDeltas calls) ∧
      (historyFor s'.conn.committed pid).length = calls.length ∧
      ∀ h ∈ historyFor s'.conn.committed pid,
        h.new_quantity - h.previous_quantity = h.change_amount := by
  obtain ⟨s', hrun, hcp, ⟨p', hp', hq'⟩, hlen, hmem⟩ :=
    runAdjusts_spec pid calls s p hpc hcache hp
  refine ⟨s', hrun, ?_, ?_, ?_⟩
  · unfold productQty
    rw [← hcp, hp']
    rw [Option.map_some', hq']
  · rw [← hcp, hlen, hh]
    simp
  · intro h hmemh
    rw [← hcp] at hmemh
    rcases hmem h hmemh with hmem0 | heq
    · rw [hh] at hmem0
      cases hmem0
    · exact heq

/-- C5 witness: one `+5` adjustment on the store holding product 1 with
quantity 10. -/
theorem adjust_quantity_pairing_witness :
    (storeWithTee.conn.pending = storeWithTee.conn.committed) ∧
    (findProduct storeWithTee.conn.pending 1 = some { product_id := 1, name := "Tee", category := "blank", sku := some "TS001", quantity := 10, updated_at := 0 }) ∧
    (historyFor storeWithTee.conn.pending 1 = []) ∧
    (∃ s', runAdjusts 1 storeWithTee [{ delta := 5, user := "user1", reason := some "restock" }] = (s', List.replicate 1 true) ∧
      productQty s'.conn.committed 1 = some ((10 : Int) + sumDeltas [{ delta := 5, user := "user1", reason := some "restock" }]) ∧
      (historyFor s'.conn.committed 1).length = 1 ∧
      ∀ h ∈ historyFor s'.conn.committed 1,
        h.new_quantity - h.previous_quantity = h.change_amount) :=
  ⟨by decide, by decide, by decide,
   adjust_quantity_pairing storeWithTee 1 { product_id := 1, name := "Tee", category := "blank", sku := some "TS001", quantity := 10, updated_at := 0 } [{ delta := 5, user := "user1", reason := some "restock" }] (by decide)
     (fun r hr => by
       rw [show dictGet storeWithTee.cache (productKey 1) = (none : Option CVal) from by decide] at hr
       exact Option.noConfusion hr)
     (by decide) (by decide)⟩
